import Mathlib

/-!
Verification of the download-cache-and-sync core of the Moodle scraper
(`src/main.py`).  The embedding models Python strings as Lean `String`
(operated on through their `List Char` data, ASCII-faithful), the JSON
history dict as an association list `List (String × String)` with Python
dict lookup/insert semantics, the network as a pure function from URL to
an optional HTTP response (`none` models a raised exception during the
request), and the durable history file as a second `History` value that
`_save_history` overwrites.  Effects (network GETs, download body writes,
history-file saves) are recorded in an explicit event list.  Path joining
follows POSIX `os.path.join` (`os.sep = '/'`, so the `replace(os.sep,'/')`
in README entries is the identity and is modelled as such).  The
BeautifulSoup `get_text` calls and the course title extraction are
external-library behaviour and are passed in as an oracle parameter
`getText` / `course_title`.
-/

namespace MoodleScraper

/-! ### Character / string primitives -/

/-- The ASCII whitespace characters matched by Python's `str.strip` and the
regex class `\s` (space, tab, newline, carriage return, vertical tab,
form feed). -/
def pyIsSpace (c : Char) : Bool :=
  c = ' ' || c = '\t' || c = '\n' || c = '\r' || c = '\x0b' || c = '\x0c'

/-- The nine characters removed by `_clean_name`'s second regex,
`[\\/*?:"<>|]` (main.py line 70). -/
def isIllegal (c : Char) : Bool :=
  c = '\\' || c = '/' || c = '*' || c = '?' || c = ':' || c = '"' || c = '<' || c = '>' || c = '|'

/-- `prefixOfL n l` is true iff `n` is a prefix of `l`. -/
def prefixOfL : List Char → List Char → Bool
  | [], _ => true
  | _ :: _, [] => false
  | a :: as, b :: bs => a == b && prefixOfL as bs

/-- `subOfL n l` is true iff `n` occurs contiguously inside `l`
(Python's `needle in haystack` on strings). -/
def subOfL : List Char → List Char → Bool
  | n, [] => prefixOfL n []
  | n, h :: t => prefixOfL n (h :: t) || subOfL n t

/-- Python `s.endswith(suffix)`. -/
def strEndsWith (s suffix : String) : Bool :=
  prefixOfL suffix.data.reverse s.data.reverse

/-- Python `s.startswith(pre)`. -/
def strStartsWith (s pre : String) : Bool :=
  prefixOfL pre.data s.data

/-- Drop the last `n` characters of `s`. -/
def strDropRight (s : String) (n : Nat) : String :=
  ⟨s.data.take (s.data.length - n)⟩

/-- Python `c in s` for a single character `c`. -/
def strContainsChar (s : String) (c : Char) : Bool :=
  s.data.contains c

/-- Python `needle in hay` (substring containment). -/
def strContainsSub (hay needle : String) : Bool :=
  subOfL needle.data hay.data

/-- Python `str.lower()`, restricted to its ASCII action. -/
def lowerStr (s : String) : String := ⟨s.data.map Char.toLower⟩

/-- Python `str.strip()` on the character list. -/
def pyStrip (l : List Char) : List Char :=
  ((l.dropWhile pyIsSpace).reverse.dropWhile pyIsSpace).reverse

/-- Python `str.strip()` on strings. -/
def pyStripStr (s : String) : String := ⟨pyStrip s.data⟩

/-- `re.sub(r'\s+', '_', ·)`: every maximal run of whitespace becomes a
single underscore (main.py line 69). -/
def squashWs : List Char → List Char
  | [] => []
  | [c] => if pyIsSpace c then ['_'] else [c]
  | a :: b :: rest =>
    if pyIsSpace a && pyIsSpace b then squashWs (b :: rest)
    else if pyIsSpace a then '_' :: squashWs (b :: rest)
    else a :: squashWs (b :: rest)

/-- `re.sub(r'[\\/*?:"<>|]', "", ·)` (main.py line 70). -/
def removeIllegal (l : List Char) : List Char :=
  l.filter (fun c => !isIllegal c)

/-- `ResourceDownloader._clean_name` (main.py lines 67-70):
lowercase, strip, collapse whitespace runs to `_`, remove the nine
illegal filesystem characters. -/
def clean_name (text : String) : String :=
  ⟨removeIllegal (squashWs (pyStrip (text.data.map Char.toLower)))⟩

/-- `"\n".join(lines)` (main.py line 180). -/
def joinNL : List String → String
  | [] => ""
  | [s] => s
  | s :: rest => s ++ "\n" ++ joinNL rest

/-- POSIX `os.path.join` for two components (main.py line 103). -/
def pathJoin (a b : String) : String :=
  if strStartsWith b "/" then b
  else if a = "" then b
  else if strEndsWith a "/" then a ++ b
  else a ++ "/" ++ b

/-! ### The history store -/

/-- The persisted url→relative-path mapping (`self.history`), modelled as
an association list with Python dict semantics. -/
abbrev History := List (String × String)

/-- Dict lookup: `history[url]` / `url in history`. -/
def hfind : History → String → Option String
  | [], _ => none
  | (k, v) :: t, key => if k = key then some v else hfind t key

/-- Dict assignment `history[url] = path`: overwrite in place if the key is
present, else append at the end. -/
def hinsert : History → String → String → History
  | [], key, val => [(key, val)]
  | (k, v) :: t, key, val =>
    if k = key then (k, val) :: t else (k, v) :: hinsert t key val

/-- The durable history file as seen by `_load_history` (main.py
lines 53-60): absent, present but not valid JSON, or a valid mapping. -/
inductive DiskFile where
  | missing
  | corrupt (raw : String)
  | valid (h : History)

/-- `ResourceDownloader._load_history` (main.py lines 53-60): a missing
file or a `json.load` failure (bare `except`) yields `{}`. -/
def load_history : DiskFile → History
  | .missing => []
  | .corrupt _ => []
  | .valid h => h

/-! ### The fetch operation -/

/-- The part of an HTTP response `get_file` inspects: the declared
`Content-Type` header (`''` when absent, per `headers.get('Content-Type','')`). -/
structure HttpResp where
  contentType : String
deriving Repr, DecidableEq

/-- The remote, as a pure function: `none` models an exception raised
during the request (caught by `get_file`'s `except`). -/
abbrev Net := String → Option HttpResp

/-- Tagged outcome of one fetch attempt (spec §3 `DownloadResult`).
`Cached`/`Saved` carry the relative path `get_file` returns;
`SkippedNonFile` is the `text/html` guard; `Failed` the caught
exception.  The Python code returns the path for the first two and
`None` for the last two. -/
inductive DownloadResult where
  | Cached (path : String)
  | Saved (path : String)
  | SkippedNonFile
  | Failed
deriving Repr, DecidableEq

/-- The value `get_file` actually returns to its caller (`None` for the
no-path outcomes). -/
def pathOf : DownloadResult → Option String
  | .Cached p => some p
  | .Saved p => some p
  | .SkippedNonFile => none
  | .Failed => none

/-- Observable side effects of the core: one HTTP GET, one download body
written to disk, one overwrite of the durable history file. -/
inductive Ev where
  | netGet (url : String)
  | fileWrite (path : String)
  | storeSave (h : History)
deriving Repr, DecidableEq

/-- `url + ("&" if "?" in url else "?") + "redirect=1"` (main.py line 77). -/
def target_url (url : String) : String :=
  url ++ (if strContainsChar url '?' then "&" else "?") ++ "redirect=1"

/-- The fixed content-type→extension table (main.py lines 85-95),
`ext_map.get(ctype, "")`. -/
def ext_map (ctype : String) : String :=
  if ctype = "application/pdf" then ".pdf"
  else if ctype = "application/vnd.openxmlformats-officedocument.wordprocessingml.document" then ".docx"
  else if ctype = "application/msword" then ".doc"
  else if ctype = "application/vnd.openxmlformats-officedocument.presentationml.presentation" then ".pptx"
  else if ctype = "application/vnd.ms-powerpoint" then ".ppt"
  else if ctype = "application/vnd.openxmlformats-officedocument.spreadsheetml.sheet" then ".xlsx"
  else if ctype = "application/vnd.ms-excel" then ".xls"
  else if ctype = "text/plain" then ".txt"
  else if ctype = "application/zip" then ".zip"
  else ""

/-- The extension list of the no-double-extension check (main.py line 98).
Note it does not contain `".txt"`. -/
def known_exts : List String :=
  [".pdf", ".docx", ".doc", ".pptx", ".ppt", ".xlsx", ".xls", ".zip"]

/-- `re.sub(r'(File|URL|Folder)$', '', display_name)` (main.py line 82):
the `$`-anchored alternation removes exactly one trailing literal
occurrence (the three alternatives are mutually exclusive as suffixes). -/
def stripModuleSuffix (s : String) : String :=
  if strEndsWith s "File" then strDropRight s 4
  else if strEndsWith s "URL" then strDropRight s 3
  else if strEndsWith s "Folder" then strDropRight s 6
  else s

/-- Filename computation of `get_file` (main.py lines 82-101), as a
function of the lowercased content type and the raw display name. -/
def computeFilename (ctype display_name : String) : String :=
  let clean_display := pyStripStr (stripModuleSuffix display_name)
  let base_name := clean_name clean_display
  let extension := ext_map ctype
  if known_exts.any (fun e => strEndsWith base_name e) then base_name
  else base_name ++ extension

/-- The relative path `get_file` saves a new download under:
`os.path.join(folder_name, filename)` (main.py line 103), with the
filename computed from the lowercased `Content-Type` header. -/
def savedPath (resp : HttpResp) (folder_name display_name : String) : String :=
  pathJoin folder_name (computeFilename (lowerStr resp.contentType) display_name)

/-- Result of one `get_file` call: the outcome, the in-memory history, the
durable history file content, and the emitted effects. -/
structure FetchOut where
  result : DownloadResult
  history : History
  stored : History
  events : List Ev
deriving Repr, DecidableEq

/-- `ResourceDownloader.get_file` (main.py lines 72-115).
Branches: cache hit (lines 73-75); GET with `redirect=1`; `text/html`
guard (line 80); filename computation; body write; history insert
followed immediately by `_save_history` (lines 109-110, which overwrites
the durable file with the full mapping); any exception yields `None`
(modelled by `net` returning `none`). -/
def get_file (net : Net) (history stored : History) (url folder_name display_name : String) :
    FetchOut :=
  match hfind history url with
  | some p => ⟨.Cached p, history, stored, []⟩
  | none =>
    let target := target_url url
    match net target with
    | none => ⟨.Failed, history, stored, [.netGet target]⟩
    | some resp =>
      let ctype := lowerStr resp.contentType
      if strContainsSub ctype "text/html" then
        ⟨.SkippedNonFile, history, stored, [.netGet target]⟩
      else
        let rel_path := savedPath resp folder_name display_name
        let h' := hinsert history url rel_path
        ⟨.Saved rel_path, h', h', [.netGet target, .fileWrite rel_path, .storeSave h']⟩

/-! ### The sync loop -/

/-- A course-module record from the state blob (`state['cm']` entries):
`id`, raw `name`, `module` kind string, and the `url` field, which may be
absent. -/
structure CMItem where
  idNum : Nat
  name : String
  module : String
  url : Option String
deriving Repr, DecidableEq

/-- A section record (`state['section']` entries): optional `title`,
`name` and `summary` fields plus the ordered `cmlist`. -/
structure CSec where
  title : Option String
  name : Option String
  summary : Option String
  cmlist : List Nat
deriving Repr, DecidableEq

/-- The course state blob, reduced to the fields `run` reads. -/
structure CourseState where
  cm : List CMItem
  sections : List CSec
deriving Repr, DecidableEq

/-- `cm_map = {str(item['id']): item for item in state.get('cm', [])}`
(main.py line 140) followed by `cm_map.get(str(cm_id))`: a dict
comprehension is last-writer-wins on colliding ids. -/
def cm_map_lookup (cms : List CMItem) (i : Nat) : Option CMItem :=
  (cms.filter (fun it => it.idNum == i)).getLast?

/-- Python `x or y` for an optional string `x`: `None` and `""` are both
falsy (main.py line 148). -/
def orElseStr (x : Option String) (y : String) : String :=
  match x with
  | some s => if s = "" then y else s
  | none => y

/-- README line for a locally mirrored resource (main.py line 173):
`f"* [[{local_rel}|{clean_title}]]"` (POSIX, so the
`replace(os.sep, '/')` is the identity). -/
def resLinkLine (path title : String) : String :=
  "* [[" ++ path ++ "|" ++ title ++ "]]"

/-- README line for a non-resource module (main.py line 175):
`f"* [{clean_title}]({item.get('url', '#')})"`. -/
def extLinkLine (title target : String) : String :=
  "* [" ++ title ++ "](" ++ target ++ ")"

/-- Accumulated output of a piece of the sync loop: README lines appended,
resulting history and durable file, emitted effects, and the
`DownloadResult` of every fetch attempt made. -/
structure StepOut where
  readme : List String
  history : History
  stored : History
  events : List Ev
  outcomes : List DownloadResult
deriving Repr, DecidableEq

/-- Processing of one module id inside a section (main.py lines 164-175).
`getText` is the external `BeautifulSoup(...).get_text(strip=True)`
oracle.  A missing id is skipped silently; a `resource` module whose
record lacks the `url` field raises `KeyError` (line 170), aborting the
run (`none`); other kinds append a plain link with target
`item.get('url', '#')`.  A resource link is appended only when `get_file`
returned a truthy (non-`None`, non-empty) path. -/
def processModule (net : Net) (getText : String → String) (cms : List CMItem)
    (folder_name : String) (h st : History) (cmId : Nat) : Option StepOut :=
  match cm_map_lookup cms cmId with
  | none => some ⟨[], h, st, [], []⟩
  | some item =>
    let clean_title := getText item.name
    if item.module = "resource" then
      match item.url with
      | none => none
      | some u =>
        let fo := get_file net h st u folder_name item.name
        let entry :=
          match pathOf fo.result with
          | some p => if p = "" then [] else [resLinkLine p clean_title]
          | none => []
        some ⟨entry, fo.history, fo.stored, fo.events, [fo.result]⟩
    else
      some ⟨[extLinkLine clean_title (match item.url with | some u => u | none => "#")],
            h, st, [], []⟩

/-- Sequential processing of a section's `cmlist` (main.py line 164). -/
def processCmList (net : Net) (getText : String → String) (cms : List CMItem)
    (folder_name : String) : List Nat → History → History → Option StepOut
  | [], h, st => some ⟨[], h, st, [], []⟩
  | i :: t, h, st =>
    match processModule net getText cms folder_name h st i with
    | none => none
    | some o1 =>
      match processCmList net getText cms folder_name t o1.history o1.stored with
      | none => none
      | some o2 =>
        some ⟨o1.readme ++ o2.readme, o2.history, o2.stored,
              o1.events ++ o2.events, o1.outcomes ++ o2.outcomes⟩

/-- `raw_name = sec.get('title') or sec.get('name') or "General"`
(main.py line 148). -/
def sectionRawName (sec : CSec) : String :=
  orElseStr sec.title (orElseStr sec.name "General")

/-- `folder_name = self.downloader._clean_name(raw_name)` (main.py
line 149). -/
def sectionFolder (sec : CSec) : String :=
  clean_name (sectionRawName sec)

/-- The README heading `f"\n## {raw_name}"` (main.py line 163). -/
def sectionHeading (sec : CSec) : String :=
  "\n## " ++ sectionRawName sec

/-- Processing of one section (main.py lines 147-177): section name
fallback `title or name or "General"`, folder token via `_clean_name`,
the `\n## ...` README heading, then its module list.  The `context.txt`
write and the `is_new`/`section_updated` bookkeeping only feed log
output and are not modelled. -/
def processSection (net : Net) (getText : String → String) (cms : List CMItem)
    (sec : CSec) (h st : History) : Option StepOut :=
  match processCmList net getText cms (sectionFolder sec) sec.cmlist h st with
  | none => none
  | some o =>
    some ⟨sectionHeading sec :: o.readme, o.history, o.stored, o.events, o.outcomes⟩

/-- Sequential processing of the section list, in given order. -/
def processSections (net : Net) (getText : String → String) (cms : List CMItem) :
    List CSec → History → History → Option StepOut
  | [], h, st => some ⟨[], h, st, [], []⟩
  | sec :: rest, h, st =>
    match processSection net getText cms sec h st with
    | none => none
    | some o1 =>
      match processSections net getText cms rest o1.history o1.stored with
      | none => none
      | some o2 =>
        some ⟨o1.readme ++ o2.readme, o2.history, o2.stored,
              o1.events ++ o2.events, o1.outcomes ++ o2.outcomes⟩

/-- Result of one sync run: the README content (the index document written
at main.py lines 179-180), final history, durable file, effects, fetch
outcomes. -/
structure RunOut where
  readme : String
  history : History
  stored : History
  events : List Ev
  outcomes : List DownloadResult
deriving Repr, DecidableEq

/-- The fixed README header lines (main.py line 143). -/
def headLines (course_url course_title : String) : List String :=
  ["# " ++ course_title, "\n[Moodle Link](" ++ course_url ++ ")",
   "[[class_notes/|Class Notes]]\n", "---"]

/-- The sync core of `CourseManager.run` (main.py lines 139-180): the
fixed README header lines (line 143), the section walk, and the final
`"\n".join`.  `course_title` and `getText` stand for the
externally-derived page title and HTML-to-text conversion, both functions
of the unchanged remote state. -/
def runSync (net : Net) (getText : String → String) (course_url course_title : String)
    (cs : CourseState) (h st : History) : Option RunOut :=
  match processSections net getText cs.cm cs.sections h st with
  | none => none
  | some o =>
    some ⟨joinNL (headLines course_url course_title ++ o.readme),
          o.history, o.stored, o.events, o.outcomes⟩

/-- `hext a b`: every binding of `a` is a binding of `b` (history only
ever grows during a run, by fresh-key inserts). -/
def hext (a b : History) : Prop :=
  ∀ k v, hfind a k = some v → hfind b k = some v

/-- A URL whose fetch attempt cannot succeed against `net`: the request
raises, or the response is an HTML page. -/
def badUrl (net : Net) (u : String) : Prop :=
  net (target_url u) = none ∨
    ∃ resp, net (target_url u) = some resp ∧
      strContainsSub (lowerStr resp.contentType) "text/html" = true

/-- An event trace containing only HTTP GETs: no download body was written
and the durable history file was never touched. -/
def netOnly (evs : List Ev) : Prop :=
  ∀ e ∈ evs, ∃ u, e = Ev.netGet u

/-- Every fetch outcome that yields a path is a cache hit; nothing was
newly saved. -/
def cacheOnly (outs : List DownloadResult) : Prop :=
  ∀ r ∈ outs, (∃ p, r = DownloadResult.Cached p) ∨
    r = DownloadResult.SkippedNonFile ∨ r = DownloadResult.Failed

/-! ### History store lemmas -/

theorem hfind_hinsert_self (h : History) (k v : String) :
    hfind (hinsert h k v) k = some v := by
  induction h with
  | nil => simp [hinsert, hfind]
  | cons e t ih =>
    obtain ⟨k₀, v₀⟩ := e
    by_cases hk : k₀ = k
    · simp [hinsert, hfind, hk]
    · simp [hinsert, hfind, hk, ih]

theorem hfind_hinsert_ne (h : History) (k v k' : String) (hne : k ≠ k') :
    hfind (hinsert h k v) k' = hfind h k' := by
  induction h with
  | nil => simp [hinsert, hfind, hne]
  | cons e t ih =>
    obtain ⟨k₀, v₀⟩ := e
    by_cases hk : k₀ = k
    · subst hk
      simp [hinsert, hfind, hne]
    · simp [hinsert, hfind, hk, ih]

theorem hext_refl (h : History) : hext h h := fun _ _ hk => hk

theorem hext_trans {a b c : History} (h₁ : hext a b) (h₂ : hext b c) : hext a c :=
  fun k v hk => h₂ k v (h₁ k v hk)

theorem hext_hinsert (h : History) (k v : String) (hm : hfind h k = none) :
    hext h (hinsert h k v) := by
  intro k' v' hk'
  by_cases he : k = k'
  · subst he
    rw [hm] at hk'
    exact absurd hk' (by simp)
  · rw [hfind_hinsert_ne h k v k' he]
    exact hk'

theorem hext_none {a b : History} (hx : hext a b) (k : String) (hk : hfind b k = none) :
    hfind a k = none := by
  cases hv : hfind a k with
  | none => rfl
  | some v => rw [hx k v hv] at hk; cases hk

/-! ### `get_file` branch lemmas -/

theorem gf_hit (net : Net) (h st : History) (url f d p : String)
    (hc : hfind h url = some p) :
    get_file net h st url f d = ⟨.Cached p, h, st, []⟩ := by
  simp [get_file, hc]

theorem gf_err (net : Net) (h st : History) (url f d : String)
    (hm : hfind h url = none) (hn : net (target_url url) = none) :
    get_file net h st url f d = ⟨.Failed, h, st, [.netGet (target_url url)]⟩ := by
  simp [get_file, hm, hn]

theorem gf_html (net : Net) (h st : History) (url f d : String) (resp : HttpResp)
    (hm : hfind h url = none) (hn : net (target_url url) = some resp)
    (hh : strContainsSub (lowerStr resp.contentType) "text/html" = true) :
    get_file net h st url f d = ⟨.SkippedNonFile, h, st, [.netGet (target_url url)]⟩ := by
  simp [get_file, hm, hn, hh]

theorem gf_save (net : Net) (h st : History) (url f d : String) (resp : HttpResp)
    (hm : hfind h url = none) (hn : net (target_url url) = some resp)
    (hh : strContainsSub (lowerStr resp.contentType) "text/html" = false) :
    get_file net h st url f d =
      ⟨.Saved (savedPath resp f d), hinsert h url (savedPath resp f d),
        hinsert h url (savedPath resp f d),
        [.netGet (target_url url), .fileWrite (savedPath resp f d),
         .storeSave (hinsert h url (savedPath resp f d))]⟩ := by
  simp [get_file, hm, hn, hh]

/-! ### Claims about `get_file` and `_load_history` -/

/-- C2: for every URL already present in the history mapping, `get_file`
returns the stored path for that URL unchanged, issues no network request
(the event trace is empty), and leaves the history mapping (and the
durable file) unmodified. -/
theorem cache_hit_no_network (net : Net) (h st : History) (url folder display p : String)
    (hc : hfind h url = some p) :
    get_file net h st url folder display = ⟨.Cached p, h, st, []⟩ :=
  gf_hit net h st url folder display p hc

/-- Witness for C2 at a concrete cached URL. -/
theorem cache_hit_no_network_witness :
    get_file (fun _ => none) [("u", "p")] [("u", "p")] "u" "f" "d" =
      ⟨.Cached "p", [("u", "p")], [("u", "p")], []⟩ :=
  cache_hit_no_network (fun _ => none) [("u", "p")] [("u", "p")] "u" "f" "d" "p" (by decide)

/-- C3: a fetch whose response declares a content type containing
`text/html` yields `SkippedNonFile` (a no-path outcome); no file is
written (the only event is the GET itself) and the history mapping and
durable file are untouched. -/
theorem html_guard (net : Net) (h st : History) (url folder display : String)
    (resp : HttpResp) (hm : hfind h url = none) (hn : net (target_url url) = some resp)
    (hh : strContainsSub (lowerStr resp.contentType) "text/html" = true) :
    get_file net h st url folder display =
      ⟨.SkippedNonFile, h, st, [.netGet (target_url url)]⟩ ∧
    pathOf .SkippedNonFile = none :=
  ⟨gf_html net h st url folder display resp hm hn hh, rfl⟩

/-- Witness for C3 with a concrete HTML response. -/
theorem html_guard_witness :
    get_file (fun _ => some ⟨"text/html; charset=utf-8"⟩) [] [] "u" "f" "d" =
      ⟨.SkippedNonFile, [], [], [.netGet (target_url "u")]⟩ ∧
    pathOf .SkippedNonFile = none :=
  html_guard (fun _ => some ⟨"text/html; charset=utf-8"⟩) [] [] "u" "f" "d"
    ⟨"text/html; charset=utf-8"⟩ (by decide) rfl (by decide)

/-- C5: with content type `application/pdf` and display name
`"Lecture Notes File"`, the stored filename is exactly
`lecture_notes.pdf` (trailing `File` stripped, trimmed, lowercased,
spaces to underscores, `.pdf` appended). -/
theorem extension_inference_pdf (net : Net) (h st : History) (url folder : String)
    (resp : HttpResp) (hm : hfind h url = none) (hn : net (target_url url) = some resp)
    (hct : resp.contentType = "application/pdf") :
    (get_file net h st url folder "Lecture Notes File").result =
      DownloadResult.Saved (pathJoin folder "lecture_notes.pdf") := by
  have hh : strContainsSub (lowerStr resp.contentType) "text/html" = false := by
    rw [hct]; decide
  have hfn : savedPath resp folder "Lecture Notes File" = pathJoin folder "lecture_notes.pdf" := by
    unfold savedPath
    rw [hct, (by decide : computeFilename (lowerStr "application/pdf") "Lecture Notes File" =
      "lecture_notes.pdf")]
  rw [gf_save net h st url folder "Lecture Notes File" resp hm hn hh, hfn]

/-- Witness for C5 at a concrete URL and network. -/
theorem extension_inference_pdf_witness :
    (get_file (fun _ => some ⟨"application/pdf"⟩) [] [] "u" "f" "Lecture Notes File").result =
      DownloadResult.Saved (pathJoin "f" "lecture_notes.pdf") :=
  extension_inference_pdf (fun _ => some ⟨"application/pdf"⟩) [] [] "u" "f"
    ⟨"application/pdf"⟩ (by decide) rfl rfl

/-- C6: whenever `get_file` ends in a successful new download (`Saved p`),
the URL→path entry has been inserted into the history mapping and the
full mapping has been persisted to the durable store before the call
returns: the resulting durable content equals the resulting in-memory
mapping, and the event trace ends with a `storeSave` of exactly that
mapping, immediately after the single `fileWrite` — persistence happens
inside the very call that mutates, never batched across downloads. -/
theorem save_persists_immediately (net : Net) (h st : History) (url folder display p : String)
    (hs : (get_file net h st url folder display).result = .Saved p) :
    (get_file net h st url folder display).history = hinsert h url p ∧
    (get_file net h st url folder display).stored =
      (get_file net h st url folder display).history ∧
    (get_file net h st url folder display).events =
      [.netGet (target_url url), .fileWrite p, .storeSave (hinsert h url p)] := by
  cases hc : hfind h url with
  | some q =>
    rw [gf_hit net h st url folder display q hc] at hs
    simp at hs
  | none =>
    cases hn : net (target_url url) with
    | none =>
      rw [gf_err net h st url folder display hc hn] at hs
      simp at hs
    | some resp =>
      cases hh : strContainsSub (lowerStr resp.contentType) "text/html" with
      | true =>
        rw [gf_html net h st url folder display resp hc hn hh] at hs
        simp at hs
      | false =>
        have he := gf_save net h st url folder display resp hc hn hh
        rw [he] at hs
        simp only [FetchOut.mk.injEq] at hs
        simp at hs
        rw [he, ← hs]
        exact ⟨rfl, rfl, rfl⟩

/-- Witness for C6 at a concrete new download. -/
theorem save_persists_immediately_witness :
    (get_file (fun _ => some ⟨"application/pdf"⟩) [] [] "u" "f" "D").history =
      hinsert [] "u" "f/d.pdf" ∧
    (get_file (fun _ => some ⟨"application/pdf"⟩) [] [] "u" "f" "D").stored =
      (get_file (fun _ => some ⟨"application/pdf"⟩) [] [] "u" "f" "D").history ∧
    (get_file (fun _ => some ⟨"application/pdf"⟩) [] [] "u" "f" "D").events =
      [.netGet (target_url "u"), .fileWrite "f/d.pdf", .storeSave (hinsert [] "u" "f/d.pdf")] :=
  save_persists_immediately (fun _ => some ⟨"application/pdf"⟩) [] [] "u" "f" "D" "f/d.pdf"
    (by decide)

/-- C7: loading the history store from a missing file or from a file whose
content is not valid JSON yields the empty mapping; `load_history` is a
total function, so the corruption is swallowed rather than surfaced. -/
theorem load_history_lenient (raw : String) :
    load_history DiskFile.missing = ([] : History) ∧
    load_history (DiskFile.corrupt raw) = ([] : History) :=
  ⟨rfl, rfl⟩

/-- C8: whenever `get_file` returns a path (rather than the no-path
outcome `None`), the history mapping at the moment of return maps the
requested URL to exactly that path — in the cached branch and in the
new-download branch alike. -/
theorem returned_path_in_history (net : Net) (h st : History) (url folder display p : String)
    (hp : pathOf (get_file net h st url folder display).result = some p) :
    hfind (get_file net h st url folder display).history url = some p := by
  cases hc : hfind h url with
  | some q =>
    rw [gf_hit net h st url folder display q hc] at hp ⊢
    simp [pathOf] at hp ⊢
    rw [hc, hp]
  | none =>
    cases hn : net (target_url url) with
    | none =>
      rw [gf_err net h st url folder display hc hn] at hp
      simp [pathOf] at hp
    | some resp =>
      cases hh : strContainsSub (lowerStr resp.contentType) "text/html" with
      | true =>
        rw [gf_html net h st url folder display resp hc hn hh] at hp
        simp [pathOf] at hp
      | false =>
        rw [gf_save net h st url folder display resp hc hn hh] at hp ⊢
        simp [pathOf] at hp ⊢
        rw [← hp]
        exact hfind_hinsert_self h url (savedPath resp folder display)

/-- Witness for C8 at a concrete cached URL. -/
theorem returned_path_in_history_witness :
    hfind (get_file (fun _ => none) [("u", "p")] [] "u" "f" "d").history "u" = some "p" :=
  returned_path_in_history (fun _ => none) [("u", "p")] [] "u" "f" "d" "p" (by decide)

/-- C4, counterexample: the code's no-double-extension check (main.py
line 98) omits `.txt`, although `text/plain → .txt` is in the
content-type table.  For display name `"notes.txt"` with content type
`text/plain`, the sanitized base `"notes.txt"` ends in the table
extension `.txt`, yet the stored filename is `"notes.txt.txt"`, not the
base as-is — refuting the claim as stated. -/
theorem no_double_extension_txt_counterexample :
    (get_file (fun _ => some ⟨"text/plain"⟩) [] [] "u" "" "notes.txt").result =
      DownloadResult.Saved "notes.txt.txt" ∧
    strEndsWith (clean_name (pyStripStr (stripModuleSuffix "notes.txt"))) ".txt" = true ∧
    ext_map "text/plain" = ".txt" ∧
    "notes.txt.txt" ≠ "notes.txt" :=
  ⟨by decide, by decide, by decide, by decide⟩

/-- C4, amended: for every successful new download, the stored filename is
the sanitized base as-is when the base already ends in one of the eight
extensions the code actually checks (`.pdf .docx .doc .pptx .ppt .xlsx
.xls .zip` — the table's `.txt` is not among them), and otherwise the
extension derived from the content type (empty for unrecognized types)
is appended. -/
theorem filename_extension_rule (net : Net) (h st : History) (url folder display : String)
    (resp : HttpResp) (hm : hfind h url = none) (hn : net (target_url url) = some resp)
    (hh : strContainsSub (lowerStr resp.contentType) "text/html" = false) :
    (get_file net h st url folder display).result =
      DownloadResult.Saved (pathJoin folder
        (if known_exts.any
            (fun e => strEndsWith (clean_name (pyStripStr (stripModuleSuffix display))) e)
         then clean_name (pyStripStr (stripModuleSuffix display))
         else clean_name (pyStripStr (stripModuleSuffix display)) ++
           ext_map (lowerStr resp.contentType))) := by
  rw [gf_save net h st url folder display resp hm hn hh]
  rfl

/-- Witness for the amended C4: the spec's own no-double-extension example
(`"Syllabus.pdf"` with `application/pdf` stays `syllabus.pdf`). -/
theorem filename_extension_rule_witness :
    (get_file (fun _ => some ⟨"application/pdf"⟩) [] [] "u" "f" "Syllabus.pdf").result =
      DownloadResult.Saved (pathJoin "f" "syllabus.pdf") :=
  filename_extension_rule (fun _ => some ⟨"application/pdf"⟩) [] [] "u" "f" "Syllabus.pdf"
    ⟨"application/pdf"⟩ (by decide) rfl (by decide)

/-- C10: a non-resource module record lacking a `url` field still gets a
link entry in the index, with the literal placeholder target `"#"`, and
processing does not fail (no `KeyError`, result is `some`), leaving
history, durable file, events and outcomes untouched. -/
theorem missing_url_placeholder (net : Net) (getText : String → String) (cms : List CMItem)
    (folder : String) (h st : History) (i : Nat) (item : CMItem)
    (hl : cm_map_lookup cms i = some item)
    (hmod : item.module ≠ "resource") (hu : item.url = none) :
    processModule net getText cms folder h st i =
      some ⟨[extLinkLine (getText item.name) "#"], h, st, [], []⟩ := by
  simp [processModule, hl, hmod, hu]

/-- Witness for C10 at a concrete url-less label module. -/
theorem missing_url_placeholder_witness :
    processModule (fun _ => none) (fun s => s) [⟨1, "Note", "label", none⟩] "f" [] [] 1 =
      some ⟨[extLinkLine "Note" "#"], [], [], [], []⟩ :=
  missing_url_placeholder (fun _ => none) (fun s => s) [⟨1, "Note", "label", none⟩] "f" [] [] 1
    ⟨1, "Note", "label", none⟩ (by decide) (by decide) rfl

/-! ### Sanitizer lemmas (towards C9) -/

theorem toLower_eq_self (c : Char) (h : ¬(65 ≤ c.toNat ∧ c.toNat ≤ 90)) :
    c.toLower = c := by
  simp only [Char.toLower]
  rw [if_neg]
  omega

theorem toLower_not_upper (c : Char) :
    ¬(65 ≤ c.toLower.toNat ∧ c.toLower.toNat ≤ 90) := by
  by_cases h : 65 ≤ c.toNat ∧ c.toNat ≤ 90
  · have heq : c.toLower = Char.ofNat (c.toNat + 32) := by
      simp only [Char.toLower]
      rw [if_pos h]
    have h26 : c.toNat = 65 ∨ c.toNat = 66 ∨ c.toNat = 67 ∨ c.toNat = 68 ∨ c.toNat = 69 ∨
        c.toNat = 70 ∨ c.toNat = 71 ∨ c.toNat = 72 ∨ c.toNat = 73 ∨ c.toNat = 74 ∨
        c.toNat = 75 ∨ c.toNat = 76 ∨ c.toNat = 77 ∨ c.toNat = 78 ∨ c.toNat = 79 ∨
        c.toNat = 80 ∨ c.toNat = 81 ∨ c.toNat = 82 ∨ c.toNat = 83 ∨ c.toNat = 84 ∨
        c.toNat = 85 ∨ c.toNat = 86 ∨ c.toNat = 87 ∨ c.toNat = 88 ∨ c.toNat = 89 ∨
        c.toNat = 90 := by omega
    rw [heq]
    rcases h26 with h'|h'|h'|h'|h'|h'|h'|h'|h'|h'|h'|h'|h'|h'|h'|h'|h'|h'|h'|h'|h'|h'|h'|h'|h'|h' <;>
      rw [h'] <;> decide
  · rw [toLower_eq_self c h]
    exact h

theorem mem_of_mem_dropWhile {p : Char → Bool} {l : List Char} {c : Char}
    (hc : c ∈ l.dropWhile p) : c ∈ l :=
  (List.dropWhile_sublist p).subset hc

theorem dropWhile_eq_self_of {p : Char → Bool} {l : List Char}
    (hl : ∀ c ∈ l, p c = false) : l.dropWhile p = l := by
  cases l with
  | nil => rfl
  | cons a t => simp [List.dropWhile_cons, hl a (List.mem_cons_self a t)]

theorem mem_pyStrip {l : List Char} {c : Char} (hc : c ∈ pyStrip l) : c ∈ l := by
  unfold pyStrip at hc
  rw [List.mem_reverse] at hc
  have h1 := mem_of_mem_dropWhile hc
  rw [List.mem_reverse] at h1
  exact mem_of_mem_dropWhile h1

theorem pyStrip_eq_self {l : List Char} (hl : ∀ c ∈ l, pyIsSpace c = false) :
    pyStrip l = l := by
  unfold pyStrip
  rw [dropWhile_eq_self_of hl]
  rw [dropWhile_eq_self_of (fun c hc => hl c (List.mem_reverse.mp hc))]
  exact List.reverse_reverse l

theorem squashWs_one_s {a : Char} (ha : pyIsSpace a = true) : squashWs [a] = ['_'] := by
  simp [squashWs, ha]

theorem squashWs_one_n {a : Char} (ha : pyIsSpace a = false) : squashWs [a] = [a] := by
  simp [squashWs, ha]

theorem squashWs_cons2_ss {a b : Char} (t : List Char)
    (ha : pyIsSpace a = true) (hb : pyIsSpace b = true) :
    squashWs (a :: b :: t) = squashWs (b :: t) := by
  simp [squashWs, ha, hb]

theorem squashWs_cons2_sn {a b : Char} (t : List Char)
    (ha : pyIsSpace a = true) (hb : pyIsSpace b = false) :
    squashWs (a :: b :: t) = '_' :: squashWs (b :: t) := by
  simp [squashWs, ha, hb]

theorem squashWs_cons2_n {a b : Char} (t : List Char) (ha : pyIsSpace a = false) :
    squashWs (a :: b :: t) = a :: squashWs (b :: t) := by
  simp [squashWs, ha]

theorem mem_squashWs {c : Char} : ∀ {l : List Char}, c ∈ squashWs l → c = '_' ∨ c ∈ l := by
  intro l
  induction l with
  | nil => intro hc; simp [squashWs] at hc
  | cons a t ih =>
    cases t with
    | nil =>
      intro hc
      cases ha : pyIsSpace a
      · rw [squashWs_one_n ha] at hc
        right
        exact hc
      · rw [squashWs_one_s ha] at hc
        left
        simpa using hc
    | cons b t' =>
      intro hc
      cases ha : pyIsSpace a
      · rw [squashWs_cons2_n t' ha] at hc
        rcases List.mem_cons.mp hc with h | h
        · right; rw [h]; exact List.mem_cons_self a _
        · rcases ih h with h' | h'
          · left; exact h'
          · right; exact List.mem_cons_of_mem a h'
      · cases hb : pyIsSpace b
        · rw [squashWs_cons2_sn t' ha hb] at hc
          rcases List.mem_cons.mp hc with h | h
          · left; exact h
          · rcases ih h with h' | h'
            · left; exact h'
            · right; exact List.mem_cons_of_mem a h'
        · rw [squashWs_cons2_ss t' ha hb] at hc
          rcases ih hc with h' | h'
          · left; exact h'
          · right; exact List.mem_cons_of_mem a h'

theorem squashWs_nospace {c : Char} : ∀ {l : List Char}, c ∈ squashWs l →
    pyIsSpace c = false := by
  intro l
  induction l with
  | nil => intro hc; simp [squashWs] at hc
  | cons a t ih =>
    cases t with
    | nil =>
      intro hc
      cases ha : pyIsSpace a
      · rw [squashWs_one_n ha] at hc
        simp at hc
        rw [hc]
        exact ha
      · rw [squashWs_one_s ha] at hc
        simp at hc
        rw [hc]
        decide
    | cons b t' =>
      intro hc
      cases ha : pyIsSpace a
      · rw [squashWs_cons2_n t' ha] at hc
        rcases List.mem_cons.mp hc with h | h
        · rw [h]; exact ha
        · exact ih h
      · cases hb : pyIsSpace b
        · rw [squashWs_cons2_sn t' ha hb] at hc
          rcases List.mem_cons.mp hc with h | h
          · rw [h]; decide
          · exact ih h
        · rw [squashWs_cons2_ss t' ha hb] at hc
          exact ih hc

theorem squashWs_eq_self : ∀ {l : List Char}, (∀ c ∈ l, pyIsSpace c = false) →
    squashWs l = l := by
  intro l
  induction l with
  | nil => intro _; rfl
  | cons a t ih =>
    intro hl
    have ha := hl a (List.mem_cons_self a t)
    cases t with
    | nil => exact squashWs_one_n ha
    | cons b t' =>
      rw [squashWs_cons2_n t' ha]
      rw [ih (fun c hc => hl c (List.mem_cons_of_mem a hc))]

theorem map_toLower_eq_self : ∀ {l : List Char},
    (∀ c ∈ l, ¬(65 ≤ c.toNat ∧ c.toNat ≤ 90)) → l.map Char.toLower = l := by
  intro l
  induction l with
  | nil => intro _; rfl
  | cons a t ih =>
    intro hl
    simp only [List.map_cons]
    rw [toLower_eq_self a (hl a (List.mem_cons_self a t)),
      ih (fun c hc => hl c (List.mem_cons_of_mem a hc))]

theorem removeIllegal_eq_self {l : List Char} (hl : ∀ c ∈ l, isIllegal c = false) :
    removeIllegal l = l := by
  unfold removeIllegal
  exact List.filter_eq_self.mpr (fun c hc => by simp [hl c hc])

/-- C9: the name sanitizer is idempotent — applying `_clean_name` twice
yields the same result as applying it once — because its output contains
no ASCII uppercase letter, no whitespace character, and none of the nine
illegal filesystem characters it removes. -/
theorem clean_name_idempotent (s : String) :
    clean_name (clean_name s) = clean_name s ∧
    ∀ c ∈ (clean_name s).data,
      ¬(65 ≤ c.toNat ∧ c.toNat ≤ 90) ∧ pyIsSpace c = false ∧ isIllegal c = false := by
  have hgood : ∀ c ∈ (clean_name s).data,
      ¬(65 ≤ c.toNat ∧ c.toNat ≤ 90) ∧ pyIsSpace c = false ∧ isIllegal c = false := by
    intro c hc
    have hc' : c ∈ removeIllegal (squashWs (pyStrip (s.data.map Char.toLower))) := hc
    unfold removeIllegal at hc'
    rw [List.mem_filter] at hc'
    obtain ⟨hsq, hpass⟩ := hc'
    refine ⟨?_, squashWs_nospace hsq, by simpa using hpass⟩
    rcases mem_squashWs hsq with h | h
    · rw [h]; decide
    · have hm := mem_pyStrip h
      rw [List.mem_map] at hm
      obtain ⟨d, _, hd⟩ := hm
      rw [← hd]
      exact toLower_not_upper d
  refine ⟨?_, hgood⟩
  have h1 : (clean_name s).data.map Char.toLower = (clean_name s).data :=
    map_toLower_eq_self (fun c hc => (hgood c hc).1)
  have h2 : pyStrip (clean_name s).data = (clean_name s).data :=
    pyStrip_eq_self (fun c hc => (hgood c hc).2.1)
  have h3 : squashWs (clean_name s).data = (clean_name s).data :=
    squashWs_eq_self (fun c hc => (hgood c hc).2.1)
  have h4 : removeIllegal (clean_name s).data = (clean_name s).data :=
    removeIllegal_eq_self (fun c hc => (hgood c hc).2.2)
  show (⟨removeIllegal (squashWs (pyStrip ((clean_name s).data.map Char.toLower)))⟩ : String) =
    clean_name s
  rw [h1, h2, h3, h4]

/-- Witness for C9 at a concrete messy display name. -/
theorem clean_name_idempotent_witness :
    clean_name (clean_name " A?b  C ") = clean_name " A?b  C " ∧
    clean_name " A?b  C " = "ab_c" :=
  ⟨(clean_name_idempotent " A?b  C ").1, by decide⟩

/-! ### Event and outcome trace lemmas -/

theorem netOnly_nil : netOnly [] :=
  fun e he => absurd he (List.not_mem_nil e)

theorem cacheOnly_nil : cacheOnly [] :=
  fun r hr => absurd hr (List.not_mem_nil r)

theorem netOnly_single (u : String) : netOnly [Ev.netGet u] := by
  intro e he
  simp at he
  exact ⟨u, he⟩

theorem cacheOnly_single {r : DownloadResult}
    (hr : (∃ p, r = DownloadResult.Cached p) ∨ r = DownloadResult.SkippedNonFile ∨
      r = DownloadResult.Failed) : cacheOnly [r] := by
  intro x hx
  simp at hx
  rw [hx]
  exact hr

theorem netOnly_append {a b : List Ev} (ha : netOnly a) (hb : netOnly b) :
    netOnly (a ++ b) := by
  intro e he
  rcases List.mem_append.mp he with h | h
  · exact ha e h
  · exact hb e h

theorem cacheOnly_append {a b : List DownloadResult} (ha : cacheOnly a) (hb : cacheOnly b) :
    cacheOnly (a ++ b) := by
  intro r hr
  rcases List.mem_append.mp hr with h | h
  · exact ha r h
  · exact hb r h

/-! ### `processModule` branch equations -/

theorem pm_skip (net : Net) (gt : String → String) (cms : List CMItem) (f : String)
    (h st : History) (i : Nat) (hl : cm_map_lookup cms i = none) :
    processModule net gt cms f h st i = some ⟨[], h, st, [], []⟩ := by
  simp [processModule, hl]

theorem pm_other (net : Net) (gt : String → String) (cms : List CMItem) (f : String)
    (h st : History) (i : Nat) (item : CMItem)
    (hl : cm_map_lookup cms i = some item) (hr : ¬item.module = "resource") :
    processModule net gt cms f h st i =
      some ⟨[extLinkLine (gt item.name) (match item.url with | some u => u | none => "#")],
            h, st, [], []⟩ := by
  simp [processModule, hl, hr]

theorem pm_nourl (net : Net) (gt : String → String) (cms : List CMItem) (f : String)
    (h st : History) (i : Nat) (item : CMItem)
    (hl : cm_map_lookup cms i = some item) (hr : item.module = "resource")
    (hu : item.url = none) :
    processModule net gt cms f h st i = none := by
  simp [processModule, hl, hr, hu]

theorem pm_res (net : Net) (gt : String → String) (cms : List CMItem) (f : String)
    (h st : History) (i : Nat) (item : CMItem) (u : String)
    (hl : cm_map_lookup cms i = some item) (hr : item.module = "resource")
    (hu : item.url = some u) :
    processModule net gt cms f h st i =
      some ⟨(match pathOf (get_file net h st u f item.name).result with
             | some p => if p = "" then [] else [resLinkLine p (gt item.name)]
             | none => []),
            (get_file net h st u f item.name).history,
            (get_file net h st u f item.name).stored,
            (get_file net h st u f item.name).events,
            [(get_file net h st u f item.name).result]⟩ := by
  simp [processModule, hl, hr, hu]

/-! ### `get_file` invariants and replay -/

theorem gf_facts (net : Net) (h st : History) (url f d : String) :
    hext h (get_file net h st url f d).history ∧
    (∀ u', badUrl net u' → hfind h u' = none →
      hfind (get_file net h st url f d).history u' = none) := by
  cases hc : hfind h url with
  | some q =>
    rw [gf_hit net h st url f d q hc]
    exact ⟨hext_refl h, fun _ _ hu => hu⟩
  | none =>
    cases hn : net (target_url url) with
    | none =>
      rw [gf_err net h st url f d hc hn]
      exact ⟨hext_refl h, fun _ _ hu => hu⟩
    | some resp =>
      cases hh : strContainsSub (lowerStr resp.contentType) "text/html" with
      | true =>
        rw [gf_html net h st url f d resp hc hn hh]
        exact ⟨hext_refl h, fun _ _ hu => hu⟩
      | false =>
        rw [gf_save net h st url f d resp hc hn hh]
        refine ⟨hext_hinsert h url _ hc, ?_⟩
        intro u' hb hu'
        by_cases he : url = u'
        · subst he
          rcases hb with hb | ⟨resp', hb', hbh⟩
          · rw [hn] at hb; cases hb
          · rw [hn] at hb'
            injection hb' with hre
            rw [← hre] at hbh
            rw [hbh] at hh
            cases hh
        · rw [hfind_hinsert_ne h url _ u' he]
          exact hu'

theorem gf_replay (net : Net) (h st H stH : History) (url f d : String)
    (hx : hext (get_file net h st url f d).history H)
    (hb : ∀ u', badUrl net u' → hfind h u' = none → hfind H u' = none) :
    (get_file net H stH url f d).history = H ∧
    (get_file net H stH url f d).stored = stH ∧
    pathOf (get_file net H stH url f d).result = pathOf (get_file net h st url f d).result ∧
    ((∃ p, (get_file net H stH url f d).result = DownloadResult.Cached p) ∨
      (get_file net H stH url f d).result = DownloadResult.SkippedNonFile ∨
      (get_file net H stH url f d).result = DownloadResult.Failed) ∧
    netOnly (get_file net H stH url f d).events := by
  cases hc : hfind h url with
  | some q =>
    have h1 := gf_hit net h st url f d q hc
    rw [h1] at hx
    have hH : hfind H url = some q := hx url q hc
    rw [h1, gf_hit net H stH url f d q hH]
    exact ⟨rfl, rfl, rfl, Or.inl ⟨q, rfl⟩, netOnly_nil⟩
  | none =>
    cases hn : net (target_url url) with
    | none =>
      have hH : hfind H url = none := hb url (Or.inl hn) hc
      rw [gf_err net h st url f d hc hn, gf_err net H stH url f d hH hn]
      exact ⟨rfl, rfl, rfl, Or.inr (Or.inr rfl), netOnly_single _⟩
    | some resp =>
      cases hh : strContainsSub (lowerStr resp.contentType) "text/html" with
      | true =>
        have hH : hfind H url = none := hb url (Or.inr ⟨resp, hn, hh⟩) hc
        rw [gf_html net h st url f d resp hc hn hh,
          gf_html net H stH url f d resp hH hn hh]
        exact ⟨rfl, rfl, rfl, Or.inr (Or.inl rfl), netOnly_single _⟩
      | false =>
        have h1 := gf_save net h st url f d resp hc hn hh
        rw [h1] at hx
        have hH : hfind H url = some (savedPath resp f d) :=
          hx url (savedPath resp f d) (hfind_hinsert_self h url (savedPath resp f d))
        rw [h1, gf_hit net H stH url f d (savedPath resp f d) hH]
        exact ⟨rfl, rfl, rfl, Or.inl ⟨savedPath resp f d, rfl⟩, netOnly_nil⟩

/-! ### Module-level invariants and replay -/

theorem pm_facts (net : Net) (gt : String → String) (cms : List CMItem) (f : String)
    (h st : History) (i : Nat) (o : StepOut)
    (hp : processModule net gt cms f h st i = some o) :
    hext h o.history ∧
    (∀ u, badUrl net u → hfind h u = none → hfind o.history u = none) := by
  cases hl : cm_map_lookup cms i with
  | none =>
    rw [pm_skip net gt cms f h st i hl] at hp
    injection hp with h1
    subst h1
    exact ⟨hext_refl h, fun _ _ hu => hu⟩
  | some item =>
    by_cases hr : item.module = "resource"
    · cases hu : item.url with
      | none =>
        rw [pm_nourl net gt cms f h st i item hl hr hu] at hp
        cases hp
      | some u =>
        rw [pm_res net gt cms f h st i item u hl hr hu] at hp
        injection hp with h1
        subst h1
        exact gf_facts net h st u f item.name
    · rw [pm_other net gt cms f h st i item hl hr] at hp
      injection hp with h1
      subst h1
      exact ⟨hext_refl h, fun _ _ hu => hu⟩

theorem pm_replay (net : Net) (gt : String → String) (cms : List CMItem) (f : String)
    (h st H stH : History) (i : Nat) (o : StepOut)
    (hp : processModule net gt cms f h st i = some o)
    (hx : hext o.history H)
    (hb : ∀ u, badUrl net u → hfind h u = none → hfind H u = none) :
    ∃ o2, processModule net gt cms f H stH i = some o2 ∧
      o2.readme = o.readme ∧ o2.history = H ∧ o2.stored = stH ∧
      netOnly o2.events ∧ cacheOnly o2.outcomes := by
  cases hl : cm_map_lookup cms i with
  | none =>
    rw [pm_skip net gt cms f h st i hl] at hp
    injection hp with h1
    subst h1
    exact ⟨⟨[], H, stH, [], []⟩, pm_skip net gt cms f H stH i hl, rfl, rfl, rfl,
      netOnly_nil, cacheOnly_nil⟩
  | some item =>
    by_cases hr : item.module = "resource"
    · cases hu : item.url with
      | none =>
        rw [pm_nourl net gt cms f h st i item hl hr hu] at hp
        cases hp
      | some u =>
        rw [pm_res net gt cms f h st i item u hl hr hu] at hp
        injection hp with h1
        subst h1
        obtain ⟨g1, g2, g3, g4, g5⟩ := gf_replay net h st H stH u f item.name hx hb
        refine ⟨⟨(match pathOf (get_file net H stH u f item.name).result with
                  | some p => if p = "" then [] else [resLinkLine p (gt item.name)]
                  | none => []),
                 (get_file net H stH u f item.name).history,
                 (get_file net H stH u f item.name).stored,
                 (get_file net H stH u f item.name).events,
                 [(get_file net H stH u f item.name).result]⟩,
              pm_res net gt cms f H stH i item u hl hr hu, ?_, g1, g2, g5,
              cacheOnly_single g4⟩
        show (match pathOf (get_file net H stH u f item.name).result with
              | some p => if p = "" then [] else [resLinkLine p (gt item.name)]
              | none => []) =
            (match pathOf (get_file net h st u f item.name).result with
              | some p => if p = "" then [] else [resLinkLine p (gt item.name)]
              | none => [])
        rw [g3]
    · rw [pm_other net gt cms f h st i item hl hr] at hp
      injection hp with h1
      subst h1
      exact ⟨⟨[extLinkLine (gt item.name) (match item.url with | some u => u | none => "#")],
               H, stH, [], []⟩,
             pm_other net gt cms f H stH i item hl hr, rfl, rfl, rfl,
             netOnly_nil, cacheOnly_nil⟩

/-! ### Module-list-level invariants and replay -/

theorem pcl_facts (net : Net) (gt : String → String) (cms : List CMItem) (f : String) :
    ∀ (l : List Nat) (h st : History) (o : StepOut),
    processCmList net gt cms f l h st = some o →
    hext h o.history ∧
    (∀ u, badUrl net u → hfind h u = none → hfind o.history u = none) := by
  intro l
  induction l with
  | nil =>
    intro h st o hp
    simp [processCmList] at hp
    rw [← hp]
    exact ⟨hext_refl h, fun _ _ hu => hu⟩
  | cons i t ih =>
    intro h st o hp
    cases hm : processModule net gt cms f h st i with
    | none => simp [processCmList, hm] at hp
    | some o1 =>
      cases hr : processCmList net gt cms f t o1.history o1.stored with
      | none => simp [processCmList, hm, hr] at hp
      | some o2 =>
        simp [processCmList, hm, hr] at hp
        rw [← hp]
        obtain ⟨x1, x2⟩ := pm_facts net gt cms f h st i o1 hm
        obtain ⟨y1, y2⟩ := ih o1.history o1.stored o2 hr
        exact ⟨hext_trans x1 y1, fun u hbu hu => y2 u hbu (x2 u hbu hu)⟩

theorem pcl_replay (net : Net) (gt : String → String) (cms : List CMItem) (f : String) :
    ∀ (l : List Nat) (h st H stH : History) (o : StepOut),
    processCmList net gt cms f l h st = some o →
    hext o.history H →
    (∀ u, badUrl net u → hfind h u = none → hfind H u = none) →
    ∃ o2, processCmList net gt cms f l H stH = some o2 ∧
      o2.readme = o.readme ∧ o2.history = H ∧ o2.stored = stH ∧
      netOnly o2.events ∧ cacheOnly o2.outcomes := by
  intro l
  induction l with
  | nil =>
    intro h st H stH o hp hx hb
    simp [processCmList] at hp
    rw [← hp]
    exact ⟨⟨[], H, stH, [], []⟩, by simp [processCmList], rfl, rfl, rfl,
      netOnly_nil, cacheOnly_nil⟩
  | cons i t ih =>
    intro h st H stH o hp hx hb
    cases hm : processModule net gt cms f h st i with
    | none => simp [processCmList, hm] at hp
    | some o1 =>
      cases hr : processCmList net gt cms f t o1.history o1.stored with
      | none => simp [processCmList, hm, hr] at hp
      | some o2 =>
        simp [processCmList, hm, hr] at hp
        obtain ⟨m1, m2⟩ := pm_facts net gt cms f h st i o1 hm
        obtain ⟨t1, t2⟩ := pcl_facts net gt cms f t o1.history o1.stored o2 hr
        have hx2 : hext o2.history H := by
          rw [← hp] at hx
          exact hx
        have hxh : hext o1.history H := hext_trans t1 hx2
        obtain ⟨p2, hp2, e2, hH2, hS2, n2, c2⟩ :=
          pm_replay net gt cms f h st H stH i o1 hm hxh hb
        have hb1 : ∀ u, badUrl net u → hfind o1.history u = none → hfind H u = none :=
          fun u hbu hu => hb u hbu (hext_none m1 u hu)
        obtain ⟨q2, hq2, eq2, qH, qS, nq, cq⟩ := ih o1.history o1.stored H stH o2 hr hx2 hb1
        refine ⟨⟨p2.readme ++ q2.readme, q2.history, q2.stored, p2.events ++ q2.events,
                 p2.outcomes ++ q2.outcomes⟩, ?_, ?_, qH, qS,
                netOnly_append n2 nq, cacheOnly_append c2 cq⟩
        · have hrw : processCmList net gt cms f t p2.history p2.stored = some q2 := by
            rw [hH2, hS2]
            exact hq2
          simp [processCmList, hp2, hrw]
        · rw [← hp]
          show p2.readme ++ q2.readme = o1.readme ++ o2.readme
          rw [e2, eq2]

/-! ### Section-level invariants and replay -/

theorem ps_facts (net : Net) (gt : String → String) (cms : List CMItem) (sec : CSec)
    (h st : History) (o : StepOut)
    (hp : processSection net gt cms sec h st = some o) :
    hext h o.history ∧
    (∀ u, badUrl net u → hfind h u = none → hfind o.history u = none) := by
  cases hr : processCmList net gt cms (sectionFolder sec) sec.cmlist h st with
  | none => simp [processSection, hr] at hp
  | some o' =>
    simp [processSection, hr] at hp
    rw [← hp]
    exact pcl_facts net gt cms (sectionFolder sec) sec.cmlist h st o' hr

theorem ps_replay (net : Net) (gt : String → String) (cms : List CMItem) (sec : CSec)
    (h st H stH : History) (o : StepOut)
    (hp : processSection net gt cms sec h st = some o)
    (hx : hext o.history H)
    (hb : ∀ u, badUrl net u → hfind h u = none → hfind H u = none) :
    ∃ o2, processSection net gt cms sec H stH = some o2 ∧
      o2.readme = o.readme ∧ o2.history = H ∧ o2.stored = stH ∧
      netOnly o2.events ∧ cacheOnly o2.outcomes := by
  cases hr : processCmList net gt cms (sectionFolder sec) sec.cmlist h st with
  | none => simp [processSection, hr] at hp
  | some o' =>
    simp [processSection, hr] at hp
    have hx' : hext o'.history H := by
      rw [← hp] at hx
      exact hx
    obtain ⟨q2, hq2, eq2, qH, qS, nq, cq⟩ :=
      pcl_replay net gt cms (sectionFolder sec) sec.cmlist h st H stH o' hr hx' hb
    refine ⟨⟨sectionHeading sec :: q2.readme, q2.history, q2.stored, q2.events, q2.outcomes⟩,
            by simp [processSection, hq2], ?_, qH, qS, nq, cq⟩
    rw [← hp]
    show sectionHeading sec :: q2.readme = sectionHeading sec :: o'.readme
    rw [eq2]

/-! ### Section-list-level invariants and replay -/

theorem pss_facts (net : Net) (gt : String → String) (cms : List CMItem) :
    ∀ (secs : List CSec) (h st : History) (o : StepOut),
    processSections net gt cms secs h st = some o →
    hext h o.history ∧
    (∀ u, badUrl net u → hfind h u = none → hfind o.history u = none) := by
  intro secs
  induction secs with
  | nil =>
    intro h st o hp
    simp [processSections] at hp
    rw [← hp]
    exact ⟨hext_refl h, fun _ _ hu => hu⟩
  | cons sec rest ih =>
    intro h st o hp
    cases hm : processSection net gt cms sec h st with
    | none => simp [processSections, hm] at hp
    | some o1 =>
      cases hr : processSections net gt cms rest o1.history o1.stored with
      | none => simp [processSections, hm, hr] at hp
      | some o2 =>
        simp [processSections, hm, hr] at hp
        rw [← hp]
        obtain ⟨x1, x2⟩ := ps_facts net gt cms sec h st o1 hm
        obtain ⟨y1, y2⟩ := ih o1.history o1.stored o2 hr
        exact ⟨hext_trans x1 y1, fun u hbu hu => y2 u hbu (x2 u hbu hu)⟩

theorem pss_replay (net : Net) (gt : String → String) (cms : List CMItem) :
    ∀ (secs : List CSec) (h st H stH : History) (o : StepOut),
    processSections net gt cms secs h st = some o →
    hext o.history H →
    (∀ u, badUrl net u → hfind h u = none → hfind H u = none) →
    ∃ o2, processSections net gt cms secs H stH = some o2 ∧
      o2.readme = o.readme ∧ o2.history = H ∧ o2.stored = stH ∧
      netOnly o2.events ∧ cacheOnly o2.outcomes := by
  intro secs
  induction secs with
  | nil =>
    intro h st H stH o hp hx hb
    simp [processSections] at hp
    rw [← hp]
    exact ⟨⟨[], H, stH, [], []⟩, by simp [processSections], rfl, rfl, rfl,
      netOnly_nil, cacheOnly_nil⟩
  | cons sec rest ih =>
    intro h st H stH o hp hx hb
    cases hm : processSection net gt cms sec h st with
    | none => simp [processSections, hm] at hp
    | some o1 =>
      cases hr : processSections net gt cms rest o1.history o1.stored with
      | none => simp [processSections, hm, hr] at hp
      | some o2 =>
        simp [processSections, hm, hr] at hp
        obtain ⟨m1, m2⟩ := ps_facts net gt cms sec h st o1 hm
        obtain ⟨t1, t2⟩ := pss_facts net gt cms rest o1.history o1.stored o2 hr
        have hx2 : hext o2.history H := by
          rw [← hp] at hx
          exact hx
        have hxh : hext o1.history H := hext_trans t1 hx2
        obtain ⟨p2, hp2, e2, hH2, hS2, n2, c2⟩ :=
          ps_replay net gt cms sec h st H stH o1 hm hxh hb
        have hb1 : ∀ u, badUrl net u → hfind o1.history u = none → hfind H u = none :=
          fun u hbu hu => hb u hbu (hext_none m1 u hu)
        obtain ⟨q2, hq2, eq2, qH, qS, nq, cq⟩ := ih o1.history o1.stored H stH o2 hr hx2 hb1
        refine ⟨⟨p2.readme ++ q2.readme, q2.history, q2.stored, p2.events ++ q2.events,
                 p2.outcomes ++ q2.outcomes⟩, ?_, ?_, qH, qS,
                netOnly_append n2 nq, cacheOnly_append c2 cq⟩
        · have hrw : processSections net gt cms rest p2.history p2.stored = some q2 := by
            rw [hH2, hS2]
            exact hq2
          simp [processSections, hp2, hrw]
        · rw [← hp]
          show p2.readme ++ q2.readme = o1.readme ++ o2.readme
          rw [e2, eq2]

/-- C1: syncing a second time against the same unchanged remote state
(`net`, `getText`, title and state all fixed) yields an identical index
document (README content) and an identical history mapping, with the
durable store also unchanged; in the second run every resource that
yields a path is returned from the cache (`Cached`), nothing is newly
saved, and the event trace contains only GETs — zero download writes and
zero history-store writes. -/
theorem sync_idempotent (net : Net) (gt : String → String) (cu ct : String)
    (cs : CourseState) (h0 st0 : History) (o1 : RunOut)
    (hp : runSync net gt cu ct cs h0 st0 = some o1) :
    ∃ o2, runSync net gt cu ct cs o1.history o1.stored = some o2 ∧
      o2.readme = o1.readme ∧ o2.history = o1.history ∧ o2.stored = o1.stored ∧
      netOnly o2.events ∧ cacheOnly o2.outcomes := by
  cases hs : processSections net gt cs.cm cs.sections h0 st0 with
  | none => simp [runSync, hs] at hp
  | some o =>
    simp [runSync, hs] at hp
    obtain ⟨f1, f2⟩ := pss_facts net gt cs.cm cs.sections h0 st0 o hs
    obtain ⟨o2', h2, e2, hH, hS, n2, c2⟩ :=
      pss_replay net gt cs.cm cs.sections h0 st0 o.history o.stored o hs
        (hext_refl o.history) f2
    rw [← hp]
    have hrun : runSync net gt cu ct cs o.history o.stored =
        some ⟨joinNL (headLines cu ct ++ o2'.readme), o2'.history, o2'.stored,
              o2'.events, o2'.outcomes⟩ := by
      simp [runSync, h2]
    refine ⟨⟨joinNL (headLines cu ct ++ o2'.readme), o2'.history, o2'.stored,
             o2'.events, o2'.outcomes⟩, hrun, ?_, ?_, ?_, n2, c2⟩
    · show joinNL (headLines cu ct ++ o2'.readme) = joinNL (headLines cu ct ++ o.readme)
      rw [e2]
    · exact hH
    · show o2'.stored = o.stored
      rw [hS]

/-- Witness for C1: a one-section course with one resource module, synced
from an empty history and then re-synced from the resulting state. -/
theorem sync_idempotent_witness :
    ∃ o2, runSync (fun _ => some ⟨"application/pdf"⟩) (fun s => s) "U" "T"
        ⟨[⟨1, "Doc", "resource", some "u"⟩], [⟨some "S", none, none, [1]⟩]⟩
        [("u", "s/doc.pdf")] [("u", "s/doc.pdf")] = some o2 ∧
      o2.readme =
        "# T\n\n[Moodle Link](U)\n[[class_notes/|Class Notes]]\n\n---\n\n## S\n* [[s/doc.pdf|Doc]]" ∧
      o2.history = [("u", "s/doc.pdf")] ∧ o2.stored = [("u", "s/doc.pdf")] ∧
      netOnly o2.events ∧ cacheOnly o2.outcomes :=
  sync_idempotent (fun _ => some ⟨"application/pdf"⟩) (fun s => s) "U" "T"
    ⟨[⟨1, "Doc", "resource", some "u"⟩], [⟨some "S", none, none, [1]⟩]⟩ [] []
    ⟨"# T\n\n[Moodle Link](U)\n[[class_notes/|Class Notes]]\n\n---\n\n## S\n* [[s/doc.pdf|Doc]]",
     [("u", "s/doc.pdf")], [("u", "s/doc.pdf")],
     [.netGet "u?redirect=1", .fileWrite "s/doc.pdf", .storeSave [("u", "s/doc.pdf")]],
     [.Saved "s/doc.pdf"]⟩ (by decide)

end MoodleScraper
